import Mathlib

set_option maxHeartbeats 1000000
set_option maxRecDepth 4000

/- Shallow embedding of the 8bp graphics converter (asm2png.py, asm2pngs.py,
   png2asm.py): the CPC MODE 0/1/2 bit codecs, the firmware ink palette and
   nearest-color matching, the PNG-to-rows encoder with its palette-overflow
   and tolerance-fallback behaviour, the whole-document geometry heuristic of
   asm2png.py, the per-block header decoder of asm2pngs.py, and the numeric
   token scanner shared by both decoders. -/

/- ===== Bit codec =====
   decode_mode0/1/2 from asm2pngs.py lines 50-71 (identical copies live in
   asm2png.py lines 29-50); pack_mode0/1/2 from png2asm.py lines 100-128.
   Machine bytes are modelled as Nat; the Python `>> << & |` operators map to
   `>>> <<< &&& |||` on Nat. -/

def decode_mode0 (b : Nat) : Nat × Nat :=
  let p0 := (((b >>> 7) &&& 1) <<< 0) ||| (((b >>> 5) &&& 1) <<< 2) |||
            (((b >>> 3) &&& 1) <<< 1) ||| (((b >>> 1) &&& 1) <<< 3)
  let p1 := (((b >>> 6) &&& 1) <<< 0) ||| (((b >>> 4) &&& 1) <<< 2) |||
            (((b >>> 2) &&& 1) <<< 1) ||| (((b >>> 0) &&& 1) <<< 3)
  (p0, p1)

def decode_mode1 (b : Nat) : Nat × Nat × Nat × Nat :=
  let p0 := (((b >>> 7) &&& 1) <<< 1) ||| (((b >>> 3) &&& 1) <<< 0)
  let p1 := (((b >>> 6) &&& 1) <<< 1) ||| (((b >>> 2) &&& 1) <<< 0)
  let p2 := (((b >>> 5) &&& 1) <<< 1) ||| (((b >>> 1) &&& 1) <<< 0)
  let p3 := (((b >>> 4) &&& 1) <<< 1) ||| (((b >>> 0) &&& 1) <<< 0)
  (p0, p1, p2, p3)

def decode_mode2 (b : Nat) : List Nat :=
  (List.range 8).map (fun i => (b >>> (7 - i)) &&& 1)

def pack_mode0 (p0 p1 : Nat) : Nat :=
  (((p0 >>> 0) &&& 1) <<< 7) ||| (((p1 >>> 0) &&& 1) <<< 6) |||
  (((p0 >>> 2) &&& 1) <<< 5) ||| (((p1 >>> 2) &&& 1) <<< 4) |||
  (((p0 >>> 1) &&& 1) <<< 3) ||| (((p1 >>> 1) &&& 1) <<< 2) |||
  (((p0 >>> 3) &&& 1) <<< 1) ||| (((p1 >>> 3) &&& 1) <<< 0)

def pack_mode1 (p0 p1 p2 p3 : Nat) : Nat :=
  (((p0 >>> 1) &&& 1) <<< 7) ||| (((p1 >>> 1) &&& 1) <<< 6) |||
  (((p2 >>> 1) &&& 1) <<< 5) ||| (((p3 >>> 1) &&& 1) <<< 4) |||
  (((p0 >>> 0) &&& 1) <<< 3) ||| (((p1 >>> 0) &&& 1) <<< 2) |||
  (((p2 >>> 0) &&& 1) <<< 1) ||| (((p3 >>> 0) &&& 1) <<< 0)

/- Python: for i, p in enumerate(pxs): b |= (p & 1) << (7 - i) -/
def pack_mode2 (pxs : List Nat) : Nat :=
  pxs.enum.foldl (fun b ip => b ||| ((ip.2 &&& 1) <<< (7 - ip.1))) 0

/- Per-mode constants: px_per_byte, max_pens = 2,16 / 4,4 / 8,2
   (asm2png.py lines 167-172, asm2pngs.py lines 240-245; png2asm.py calls
   max_pens "colors" in MODE_SPECS). -/

def px_per_byte (mode : Nat) : Nat :=
  if mode = 0 then 2 else if mode = 1 then 4 else 8

def max_pens (mode : Nat) : Nat :=
  if mode = 0 then 16 else if mode = 1 then 4 else 2

/- The decode driver's pen normalization (asm2pngs.py lines 273-275,
   asm2png.py lines 201-203): if pen >= max_pens: pen = pen % max_pens. -/
def normPen (mp pen : Nat) : Nat :=
  if mp ≤ pen then pen % mp else pen

/- The driver's per-mode unpack dispatch (asm2pngs.py lines 267-272). -/
def decodePens (mode b : Nat) : List Nat :=
  if mode = 0 then [(decode_mode0 b).1, (decode_mode0 b).2]
  else if mode = 1 then
    [(decode_mode1 b).1, (decode_mode1 b).2.1, (decode_mode1 b).2.2.1, (decode_mode1 b).2.2.2]
  else decode_mode2 b

/- ===== Palette table and nearest-color matching (png2asm.py lines 29-98;
   the same INK_RGB table is duplicated in asm2png.py and asm2pngs.py). -/

/- Firmware ink -> (R, G, B) percentages, inks 0..26 in key order. -/
def INK_RGB_PCT : List (Nat × Nat × Nat) :=
  [(0,0,0), (0,0,50), (0,0,100), (50,0,0), (50,0,50), (50,0,100),
   (100,0,0), (100,0,50), (100,0,100), (0,50,0), (0,50,50), (0,50,100),
   (50,50,0), (50,50,50), (50,50,100), (100,50,0), (100,50,50), (100,50,100),
   (0,100,0), (0,100,50), (0,100,100), (50,100,0), (50,100,50), (50,100,100),
   (100,100,0), (100,100,50), (100,100,100)]

/- pct_to_8bit: 0 -> 0, 50 -> 128, 100 -> 255; otherwise Python's
   round(p * 255 / 100).  Python round on the exact rational p*255/100 is
   half-to-even, modelled here on Nat; this generic branch is unreachable for
   the fixed table, whose entries are all in 0/50/100. -/
def pct_to_8bit (p : Nat) : Nat :=
  if p = 0 then 0
  else if p = 50 then 128
  else if p = 100 then 255
  else
    let q := p * 255
    let d := q / 100
    let r := q % 100
    if 50 < r then d + 1 else if r < 50 then d else if d % 2 = 0 then d else d + 1

/- INK_RGB: the 27 ink RGB triples, in ink order (ink = list index). -/
def INK_RGB : List (Nat × Nat × Nat) :=
  INK_RGB_PCT.map (fun t => (pct_to_8bit t.1, pct_to_8bit t.2.1, pct_to_8bit t.2.2))

/- Squared Euclidean RGB distance (the d = dr*dr + dg*dg + db*db of
   nearest_ink); channel differences are signed, so computed over Int. -/
def sqDist (p q : Nat × Nat × Nat) : Int :=
  ((p.1 : Int) - q.1) * ((p.1 : Int) - q.1) +
  ((p.2.1 : Int) - q.2.1) * ((p.2.1 : Int) - q.2.1) +
  ((p.2.2 : Int) - q.2.2) * ((p.2.2 : Int) - q.2.2)

/- The per-channel max-abs distance used by the tolerance check:
   max(abs(r-ir), abs(g-ig), abs(b-ib)). -/
def chebyDist (p q : Nat × Nat × Nat) : Int :=
  max |(p.1 : Int) - q.1| (max |(p.2.1 : Int) - q.2.1| |(p.2.2 : Int) - q.2.2|)

/- One iteration of nearest_ink's loop: if d < best_d then best, best_d
   become ink, d, else both stay.  The update is written per component (the
   two ifs share one condition) so the accumulator is always a literal pair;
   nearestStep_eq below restates it as a single conditional. -/
def nearestStep (rgb : Nat × Nat × Nat) (acc : Nat × Int) (p : Nat × (Nat × Nat × Nat)) :
    Nat × Int :=
  (if sqDist rgb p.2 < acc.2 then p.1 else acc.1,
   if sqDist rgb p.2 < acc.2 then sqDist rgb p.2 else acc.2)

/- The whole loop: best = 0, best_d = 10^18, scanning INK_RGB.items()
   (insertion order, ink 0..26). -/
def nearestFold (rgb : Nat × Nat × Nat) : Nat × Int :=
  INK_RGB.enum.foldl (nearestStep rgb) (0, (10 : Int) ^ 18)

def nearest_ink_core (rgb : Nat × Nat × Nat) : Nat :=
  (nearestFold rgb).1

/- nearest_ink (png2asm.py lines 82-98).  The Python ValueError raised when
   tol >= 0 and the best match is farther than tol on some channel is
   modelled as `none`. -/
def nearest_ink (rgb : Nat × Nat × Nat) (tol : Int) : Option Nat :=
  let best := nearest_ink_core rgb
  if 0 ≤ tol then
    if tol < chebyDist rgb (INK_RGB.getD best (0, 0, 0)) then none else some best
  else some best

/-- C1: for every mode m in 0,1,2 and every byte b in 0..255, packing the pen
tuple obtained by unpacking b yields b again, and for every tuple of pen
values each below max_pens m, unpacking the packed byte yields the tuple
again. -/
theorem C1_codec_roundtrip :
    (∀ b : Fin 256, pack_mode0 (decode_mode0 b.val).1 (decode_mode0 b.val).2 = b.val) ∧
    (∀ b : Fin 256,
      pack_mode1 (decode_mode1 b.val).1 (decode_mode1 b.val).2.1
        (decode_mode1 b.val).2.2.1 (decode_mode1 b.val).2.2.2 = b.val) ∧
    (∀ b : Fin 256, pack_mode2 (decode_mode2 b.val) = b.val) ∧
    (∀ p0 p1 : Fin 16, decode_mode0 (pack_mode0 p0.val p1.val) = (p0.val, p1.val)) ∧
    (∀ p0 p1 p2 p3 : Fin 4,
      decode_mode1 (pack_mode1 p0.val p1.val p2.val p3.val) =
        (p0.val, p1.val, p2.val, p3.val)) ∧
    (∀ q0 q1 q2 q3 q4 q5 q6 q7 : Fin 2,
      decode_mode2 (pack_mode2
          [q0.val, q1.val, q2.val, q3.val, q4.val, q5.val, q6.val, q7.val]) =
        [q0.val, q1.val, q2.val, q3.val, q4.val, q5.val, q6.val, q7.val]) :=
  ⟨by decide, by decide, by decide, by decide, by decide, by decide⟩

/-- C10: for every mode and byte, every pen produced by that mode's unpack
function lies below max_pens of the mode, so the decode driver's modulo-wrap
branch never changes a pen produced by the matching decoder. -/
theorem C10_decoded_pens_in_range :
    (∀ b : Fin 256, (decode_mode0 b.val).1 < 16 ∧ (decode_mode0 b.val).2 < 16) ∧
    (∀ b : Fin 256,
      (decode_mode1 b.val).1 < 4 ∧ (decode_mode1 b.val).2.1 < 4 ∧
      (decode_mode1 b.val).2.2.1 < 4 ∧ (decode_mode1 b.val).2.2.2 < 4) ∧
    (∀ b : Fin 256, ∀ p ∈ decode_mode2 b.val, p < 2) ∧
    (∀ m : Fin 3, ∀ b : Fin 256,
      (decodePens m.val b.val).map (normPen (max_pens m.val)) = decodePens m.val b.val) :=
  ⟨by decide, by decide, by decide, by decide⟩

/-- C5: for every ink i in 0..26, looking up its RGB in the palette table and
applying nearest_ink with tolerance 0 returns i again. -/
theorem C5_palette_self_match :
    ∀ i : Fin 27, nearest_ink (INK_RGB.getD i.val (0, 0, 0)) 0 = some i.val := by
  decide

lemma nearestStep_eq (rgb : Nat × Nat × Nat) (acc : Nat × Int)
    (p : Nat × (Nat × Nat × Nat)) :
    nearestStep rgb acc p =
      if sqDist rgb p.2 < acc.2 then (p.1, sqDist rgb p.2) else acc := by
  rw [nearestStep]
  split_ifs with h <;> rfl

/- Invariant of nearest_ink's scan: the result either is the initial
   accumulator or attains the distance of some scanned entry strictly below
   the initial best_d, it never exceeds the initial best_d, and it is a lower
   bound of all scanned distances. -/
lemma nearestFoldl_spec (rgb : Nat × Nat × Nat) :
    ∀ (l : List (Nat × (Nat × Nat × Nat))) (acc : Nat × Int),
      (List.foldl (nearestStep rgb) acc l = acc ∨
        ∃ p ∈ l, List.foldl (nearestStep rgb) acc l = (p.1, sqDist rgb p.2) ∧
          sqDist rgb p.2 < acc.2) ∧
      (List.foldl (nearestStep rgb) acc l).2 ≤ acc.2 ∧
      (∀ p ∈ l, (List.foldl (nearestStep rgb) acc l).2 ≤ sqDist rgb p.2) := by
  intro l
  induction l with
  | nil => intro acc; simp
  | cons q l ih =>
    intro acc
    by_cases hd : sqDist rgb q.2 < acc.2
    · have hstep : nearestStep rgb acc q = (q.1, sqDist rgb q.2) := by
        simp [nearestStep, hd]
      obtain ⟨h1, h2, h3⟩ := ih (nearestStep rgb acc q)
      rw [hstep] at h1 h2 h3
      rw [List.foldl_cons, hstep]
      refine ⟨?_, le_of_lt (lt_of_le_of_lt h2 hd), ?_⟩
      · rcases h1 with h1 | ⟨p, hp, hpe, hplt⟩
        · exact Or.inr ⟨q, List.mem_cons_self q l, h1, hd⟩
        · exact Or.inr ⟨p, List.mem_cons_of_mem _ hp, hpe, lt_trans hplt hd⟩
      · intro p hp
        rcases List.mem_cons.mp hp with h | h
        · subst h; exact h2
        · exact h3 p h
    · have hstep : nearestStep rgb acc q = acc := by rw [nearestStep_eq, if_neg hd]
      obtain ⟨h1, h2, h3⟩ := ih (nearestStep rgb acc q)
      rw [hstep] at h1 h2 h3
      rw [List.foldl_cons, hstep]
      refine ⟨?_, h2, ?_⟩
      · rcases h1 with h1 | ⟨p, hp, hpe, hplt⟩
        · exact Or.inl h1
        · exact Or.inr ⟨p, List.mem_cons_of_mem _ hp, hpe, hplt⟩
      · intro p hp
        rcases List.mem_cons.mp hp with h | h
        · subst h; exact le_trans h2 (le_of_not_lt hd)
        · exact h3 p h

/- Tie-breaking of nearest_ink's scan: with strictly increasing ink indices
   and an accumulator whose index precedes them all, the result's index is
   at most the index of any scanned entry attaining the final distance
   (the update is strict, so the first minimum wins). -/
lemma nearestFoldl_tie (rgb : Nat × Nat × Nat) :
    ∀ (l : List (Nat × (Nat × Nat × Nat))) (acc : Nat × Int),
      l.Pairwise (fun a b => a.1 < b.1) →
      (∀ p ∈ l, acc.1 < p.1) →
      ∀ p ∈ l, sqDist rgb p.2 = (List.foldl (nearestStep rgb) acc l).2 →
        (List.foldl (nearestStep rgb) acc l).1 ≤ p.1 := by
  intro l
  induction l with
  | nil => intro acc _ _ p hp; simp at hp
  | cons q l ih =>
    intro acc hpw hlt p hp htie
    have hpw' := (List.pairwise_cons.mp hpw).2
    have hq := (List.pairwise_cons.mp hpw).1
    rw [List.foldl_cons] at htie ⊢
    by_cases hd : sqDist rgb q.2 < acc.2
    · have hstep : nearestStep rgb acc q = (q.1, sqDist rgb q.2) := by
        simp [nearestStep, hd]
      rw [hstep] at htie ⊢
      rcases List.mem_cons.mp hp with h | h
      · subst h
        obtain ⟨h1, _, _⟩ := nearestFoldl_spec rgb l (p.1, sqDist rgb p.2)
        rcases h1 with h1 | ⟨r, _, hre, hrlt⟩
        · rw [h1]
        · exfalso
          rw [hre] at htie
          have e1 : sqDist rgb p.2 = sqDist rgb r.2 := htie
          have e2 : sqDist rgb r.2 < sqDist rgb p.2 := hrlt
          omega
      · exact ih (q.1, sqDist rgb q.2) hpw' hq p h htie
    · have hstep : nearestStep rgb acc q = acc := by rw [nearestStep_eq, if_neg hd]
      rw [hstep] at htie ⊢
      rcases List.mem_cons.mp hp with h | h
      · subst h
        obtain ⟨h1, _, _⟩ := nearestFoldl_spec rgb l acc
        rcases h1 with h1 | ⟨r, _, hre, hrlt⟩
        · rw [h1]
          exact le_of_lt (hlt p (List.mem_cons_self p l))
        · exfalso
          rw [hre] at htie
          have e1 : sqDist rgb p.2 = sqDist rgb r.2 := htie
          have e2 : acc.2 ≤ sqDist rgb p.2 := le_of_not_lt hd
          have e3 : sqDist rgb r.2 < acc.2 := hrlt
          omega
      · exact ih acc hpw' (fun r hr => hlt r (List.mem_cons_of_mem _ hr)) p h htie

/- All channels of the input and of a palette entry being at most 255, the
   squared distance stays far below nearest_ink's initial best_d of 10^18. -/
lemma sqDist_lt_init (r g b : Nat) (hr : r ≤ 255) (hg : g ≤ 255) (hb : b ≤ 255)
    (q : Nat × Nat × Nat) (hq1 : q.1 ≤ 255) (hq2 : q.2.1 ≤ 255) (hq3 : q.2.2 ≤ 255) :
    sqDist (r, g, b) q < (10 : Int) ^ 18 := by
  have hr' : (r : Int) ≤ 255 := by exact_mod_cast hr
  have hg' : (g : Int) ≤ 255 := by exact_mod_cast hg
  have hb' : (b : Int) ≤ 255 := by exact_mod_cast hb
  have hq1' : (q.1 : Int) ≤ 255 := by exact_mod_cast hq1
  have hq2' : (q.2.1 : Int) ≤ 255 := by exact_mod_cast hq2
  have hq3' : (q.2.2 : Int) ≤ 255 := by exact_mod_cast hq3
  have h0r : (0 : Int) ≤ (r : Int) := Int.natCast_nonneg r
  have h0g : (0 : Int) ≤ (g : Int) := Int.natCast_nonneg g
  have h0b : (0 : Int) ≤ (b : Int) := Int.natCast_nonneg b
  have h0q1 : (0 : Int) ≤ (q.1 : Int) := Int.natCast_nonneg q.1
  have h0q2 : (0 : Int) ≤ (q.2.1 : Int) := Int.natCast_nonneg q.2.1
  have h0q3 : (0 : Int) ≤ (q.2.2 : Int) := Int.natCast_nonneg q.2.2
  have e1 : ((r : Int) - q.1) * ((r : Int) - q.1) ≤ 255 * 255 := by nlinarith
  have e2 : ((g : Int) - q.2.1) * ((g : Int) - q.2.1) ≤ 255 * 255 := by nlinarith
  have e3 : ((b : Int) - q.2.2) * ((b : Int) - q.2.2) ≤ 255 * 255 := by nlinarith
  have : sqDist (r, g, b) q ≤ 3 * (255 * 255) := by
    simp only [sqDist]
    omega
  omega

/- Concrete facts about the enumerated ink table (27 fixed entries). -/
lemma enum_head :
    INK_RGB.enum = ((0 : Nat), ((0 : Nat), (0 : Nat), (0 : Nat))) :: INK_RGB.enum.tail := by
  decide

lemma enum_tail_pairwise : (INK_RGB.enum.tail).Pairwise (fun a b => a.1 < b.1) := by
  decide

lemma enum_tail_pos : ∀ p ∈ INK_RGB.enum.tail, 0 < p.1 := by decide

lemma enum_idx : ∀ p ∈ INK_RGB.enum, p.1 < 27 ∧ p.2 = INK_RGB.getD p.1 (0, 0, 0) := by
  decide

lemma enum_mem : ∀ j : Fin 27, (j.val, INK_RGB.getD j.val (0, 0, 0)) ∈ INK_RGB.enum := by
  decide

/-- C6: for every 8-bit RGB input, nearest_ink's scan selects an ink of
minimal squared Euclidean distance, ties resolved to the lowest ink index
(the first found scanning inks 0..26 in order), and whenever nearest_ink
returns at all it returns that ink. -/
theorem C6_nearest_min_tie (r g b : Nat) (hr : r ≤ 255) (hg : g ≤ 255) (hb : b ≤ 255) :
    nearest_ink_core (r, g, b) < 27 ∧
    (∀ j : Fin 27,
      sqDist (r, g, b) (INK_RGB.getD (nearest_ink_core (r, g, b)) (0, 0, 0)) ≤
        sqDist (r, g, b) (INK_RGB.getD j.val (0, 0, 0))) ∧
    (∀ j : Fin 27,
      sqDist (r, g, b) (INK_RGB.getD j.val (0, 0, 0)) =
        sqDist (r, g, b) (INK_RGB.getD (nearest_ink_core (r, g, b)) (0, 0, 0)) →
      nearest_ink_core (r, g, b) ≤ j.val) ∧
    (∀ (tol : Int) (i : Nat),
      nearest_ink (r, g, b) tol = some i → i = nearest_ink_core (r, g, b)) := by
  have hd0 : sqDist (r, g, b) (0, 0, 0) < (10 : Int) ^ 18 :=
    sqDist_lt_init r g b hr hg hb (0, 0, 0) (by decide) (by decide) (by decide)
  have hstep0 : nearestStep (r, g, b) ((0 : Nat), (10 : Int) ^ 18)
      ((0 : Nat), ((0 : Nat), (0 : Nat), (0 : Nat))) =
      ((0 : Nat), sqDist (r, g, b) (0, 0, 0)) := by
    rw [nearestStep_eq]
    show (if sqDist (r, g, b) (0, 0, 0) < (10 : Int) ^ 18 then
        ((0 : Nat), sqDist (r, g, b) (0, 0, 0)) else ((0 : Nat), (10 : Int) ^ 18)) =
      ((0 : Nat), sqDist (r, g, b) (0, 0, 0))
    rw [if_pos hd0]
  have hfold : nearestFold (r, g, b) =
      List.foldl (nearestStep (r, g, b)) ((0 : Nat), sqDist (r, g, b) (0, 0, 0))
        INK_RGB.enum.tail := by
    rw [nearestFold, enum_head, List.foldl_cons, hstep0, List.tail_cons]
  obtain ⟨h1, h2, h3⟩ :=
    nearestFoldl_spec (r, g, b) INK_RGB.enum.tail ((0 : Nat), sqDist (r, g, b) (0, 0, 0))
  rw [← hfold] at h1 h2 h3
  have htl := nearestFoldl_tie (r, g, b) INK_RGB.enum.tail
    ((0 : Nat), sqDist (r, g, b) (0, 0, 0)) enum_tail_pairwise enum_tail_pos
  rw [← hfold] at htl
  have hattain : ∃ p ∈ INK_RGB.enum, nearestFold (r, g, b) = (p.1, sqDist (r, g, b) p.2) := by
    rcases h1 with h1 | ⟨p, hp, hpe, _⟩
    · exact ⟨((0 : Nat), ((0 : Nat), (0 : Nat), (0 : Nat))),
        by rw [enum_head]; exact List.mem_cons_self _ _, h1⟩
    · exact ⟨p, by rw [enum_head]; exact List.mem_cons_of_mem _ hp, hpe⟩
  obtain ⟨p0, hp0mem, hp0eq⟩ := hattain
  have hidx := enum_idx p0 hp0mem
  have hcore_lt : nearest_ink_core (r, g, b) < 27 := by
    rw [nearest_ink_core, hp0eq]; exact hidx.1
  have hcore_dist : (nearestFold (r, g, b)).2 =
      sqDist (r, g, b) (INK_RGB.getD (nearest_ink_core (r, g, b)) (0, 0, 0)) := by
    rw [nearest_ink_core, hp0eq]
    show sqDist (r, g, b) p0.2 = sqDist (r, g, b) (INK_RGB.getD p0.1 (0, 0, 0))
    rw [← hidx.2]
  have hmin : ∀ j : Fin 27,
      (nearestFold (r, g, b)).2 ≤ sqDist (r, g, b) (INK_RGB.getD j.val (0, 0, 0)) := by
    intro j
    have hj := enum_mem j
    rw [enum_head] at hj
    rcases List.mem_cons.mp hj with h | h
    · have hc : INK_RGB.getD j.val (0, 0, 0) = (0, 0, 0) := congrArg Prod.snd h
      rw [hc]
      exact h2
    · exact h3 _ h
  have htie : ∀ j : Fin 27,
      sqDist (r, g, b) (INK_RGB.getD j.val (0, 0, 0)) = (nearestFold (r, g, b)).2 →
      (nearestFold (r, g, b)).1 ≤ j.val := by
    intro j hj
    have hjm := enum_mem j
    rw [enum_head] at hjm
    rcases List.mem_cons.mp hjm with h | h
    · have hj0 : j.val = 0 := congrArg Prod.fst h
      have hc0 : INK_RGB.getD j.val (0, 0, 0) = (0, 0, 0) := congrArg Prod.snd h
      rw [hj0]
      rcases h1 with h1 | ⟨p, hp, hpe, hplt⟩
      · rw [h1]
      · exfalso
        rw [hc0, hpe] at hj
        have e1 : sqDist (r, g, b) (0, 0, 0) = sqDist (r, g, b) p.2 := hj
        have e2 : sqDist (r, g, b) p.2 < sqDist (r, g, b) (0, 0, 0) := hplt
        omega
    · exact htl (j.val, INK_RGB.getD j.val (0, 0, 0)) h hj
  refine ⟨hcore_lt, ?_, ?_, ?_⟩
  · intro j
    rw [← hcore_dist]
    exact hmin j
  · intro j hj
    rw [← hcore_dist] at hj
    exact htie j hj
  · intro tol i h
    simp only [nearest_ink] at h
    split_ifs at h
    all_goals exact (Option.some_inj.mp h).symm

/-- Witness for C6 at the concrete input (10, 20, 30). -/
theorem C6_nearest_min_tie_witness :
    nearest_ink_core (10, 20, 30) < 27 ∧
    (∀ j : Fin 27,
      sqDist (10, 20, 30) (INK_RGB.getD (nearest_ink_core (10, 20, 30)) (0, 0, 0)) ≤
        sqDist (10, 20, 30) (INK_RGB.getD j.val (0, 0, 0))) ∧
    (∀ j : Fin 27,
      sqDist (10, 20, 30) (INK_RGB.getD j.val (0, 0, 0)) =
        sqDist (10, 20, 30) (INK_RGB.getD (nearest_ink_core (10, 20, 30)) (0, 0, 0)) →
      nearest_ink_core (10, 20, 30) ≤ j.val) ∧
    (∀ (tol : Int) (i : Nat),
      nearest_ink (10, 20, 30) tol = some i → i = nearest_ink_core (10, 20, 30)) :=
  C6_nearest_min_tie 10 20 30 (by decide) (by decide) (by decide)

/- ===== Encoder: convert_png_to_rows (png2asm.py lines 156-229) ===== -/

structure RGBAPix where
  r : Nat
  g : Nat
  b : Nat
  a : Nat
deriving DecidableEq

/- Per-pixel ink resolution (png2asm.py lines 186-198): alpha = 0 with a
   transparent ink configured bypasses matching; otherwise nearest_ink(tol),
   and on its ValueError one retry with tol = -1, flagged as fallback. -/
def resolve_pixel (tol : Int) (transparent_ink : Option Nat) (p : RGBAPix) : Nat × Bool :=
  if p.a = 0 ∧ transparent_ink.isSome then (transparent_ink.getD 0, false)
  else
    match nearest_ink (p.r, p.g, p.b) tol with
    | some ink => (ink, false)
    | none => ((nearest_ink (p.r, p.g, p.b) (-1)).getD 0, true)

/-- C4: whenever tolerance is non-negative and nearest_ink rejects a pixel's
color, the encoder retries once with tolerance disabled, uses the nearest
ink and records the fallback flag instead of failing; nearest_ink rejects
exactly when the chosen nearest entry is farther than the tolerance on some
channel; and with negative tolerance nearest_ink never rejects. -/
theorem C4_tolerance_fallback :
    (∀ (p : RGBAPix) (tol : Int) (ti : Option Nat),
      0 ≤ tol → nearest_ink (p.r, p.g, p.b) tol = none →
      ¬(p.a = 0 ∧ ti.isSome) →
      resolve_pixel tol ti p = (nearest_ink_core (p.r, p.g, p.b), true)) ∧
    (∀ (rgb : Nat × Nat × Nat) (tol : Int), 0 ≤ tol →
      (nearest_ink rgb tol = none ↔
        tol < chebyDist rgb (INK_RGB.getD (nearest_ink_core rgb) (0, 0, 0)))) ∧
    (∀ (rgb : Nat × Nat × Nat) (tol : Int), tol < 0 →
      nearest_ink rgb tol = some (nearest_ink_core rgb)) := by
  have hneg : ∀ (rgb : Nat × Nat × Nat) (tol : Int), tol < 0 →
      nearest_ink rgb tol = some (nearest_ink_core rgb) := by
    intro rgb tol htol
    simp only [nearest_ink]
    rw [if_neg (not_le.mpr htol)]
  refine ⟨?_, ?_, hneg⟩
  · intro p tol ti htol hnone hnt
    rw [resolve_pixel, if_neg hnt, hnone,
      hneg (p.r, p.g, p.b) (-1) (by norm_num), Option.getD_some]
  · intro rgb tol htol
    simp only [nearest_ink]
    rw [if_pos htol]
    split_ifs with hc
    · simpa using hc
    · simpa using hc

/-- Witness for C4 at the out-of-palette pixel (10, 10, 10) with tolerance 0
and at (1, 2, 3) with tolerance -1. -/
theorem C4_tolerance_fallback_witness :
    resolve_pixel 0 none ⟨10, 10, 10, 255⟩ = (nearest_ink_core (10, 10, 10), true) ∧
    (nearest_ink (10, 10, 10) 0 = none ↔
      (0 : Int) < chebyDist (10, 10, 10)
        (INK_RGB.getD (nearest_ink_core (10, 10, 10)) (0, 0, 0))) ∧
    nearest_ink (1, 2, 3) (-1) = some (nearest_ink_core (1, 2, 3)) :=
  ⟨C4_tolerance_fallback.1 ⟨10, 10, 10, 255⟩ 0 none (by decide) (by decide) (by decide),
   C4_tolerance_fallback.2.1 (10, 10, 10) 0 (by decide),
   C4_tolerance_fallback.2.2 (1, 2, 3) (-1) (by decide)⟩

/- used_inks registration (png2asm.py lines 180-182): append first
   occurrences only, in encounter order. -/
def register_ink (used : List Nat) (i : Nat) : List Nat :=
  if i ∈ used then used else used ++ [i]

/- The pixel scan of convert_png_to_rows (lines 184-201): row-major walk
   producing the resolved ink grid, the used-ink list in first-occurrence
   order, and the fallback flag (true once any pixel needed the retry). -/
def scanPixels (tol : Int) (ti : Option Nat) (img : List (List RGBAPix)) :
    List (List Nat) × List Nat × Bool :=
  img.foldl
    (fun acc row =>
      let step := row.foldl
        (fun a p =>
          let ri := resolve_pixel tol ti p
          (a.1 ++ [ri.1], register_ink a.2.1 ri.1, a.2.2 || ri.2))
        (([] : List Nat), acc.2.1, acc.2.2)
      (acc.1 ++ [step.1], step.2.1, step.2.2))
    (([] : List (List Nat)), ([] : List Nat), false)

/- Fixed-size grouping of a row (the `for x in range(0, w, k)` loops of
   lines 211-226); n is the group size, the extra Nat argument is fuel set
   to the list length so the definition is structurally recursive. -/
def chunksOfF (n : Nat) : Nat → List Nat → List (List Nat)
  | 0, _ => []
  | _ + 1, [] => []
  | fuel + 1, x :: xs => (x :: xs.take (n - 1)) :: chunksOfF n fuel (xs.drop (n - 1))

def chunksOf (n : Nat) (l : List Nat) : List (List Nat) :=
  chunksOfF n l.length l

/- One raster row packed into bytes by the mode's packer (lines 208-227);
   rows always have length divisible by the group size, so the defaults of
   getD are never used on well-formed input. -/
def packRow (mode : Nat) (pens : List Nat) : List Nat :=
  if mode = 0 then
    (chunksOf 2 pens).map (fun c => pack_mode0 (c.getD 0 0) (c.getD 1 0))
  else if mode = 1 then
    (chunksOf 4 pens).map (fun c =>
      pack_mode1 (c.getD 0 0) (c.getD 1 0) (c.getD 2 0) (c.getD 3 0))
  else (chunksOf 8 pens).map pack_mode2

/- The two ValueErrors of convert_png_to_rows: width not divisible by
   px_per_byte (line 170) and used inks exceeding the mode's colors
   (line 204). -/
inductive EncodeError where
  | dimensionMismatch
  | paletteOverflow
deriving DecidableEq

/- convert_png_to_rows (png2asm.py lines 156-229) over an in-memory pixel
   grid (list of pixel rows); ink_to_pen maps an ink to its index in
   used_inks, exactly the enumerate-built dict of line 206. -/
def convert_png_to_rows (mode : Nat) (tol : Int) (transparent_ink : Option Nat)
    (img : List (List RGBAPix)) :
    Except EncodeError (Nat × Nat × List (List Nat) × List Nat × Bool) :=
  let w := (img.headD []).length
  let h := img.length
  if w % px_per_byte mode ≠ 0 then .error .dimensionMismatch
  else
    let s := scanPixels tol transparent_ink img
    if max_pens mode < s.2.1.length then .error .paletteOverflow
    else
      .ok (w / px_per_byte mode, h,
        s.1.map (fun rowInks => packRow mode (rowInks.map (fun ink => s.2.1.indexOf ink))),
        s.2.1, s.2.2)

/- The db bytes main() writes for one successfully converted image:
   db width_bytes, db height, then one db line per row (lines 297-300). -/
def imageBlockBytes (res : Nat × Nat × List (List Nat) × List Nat × Bool) : List Nat :=
  res.1 :: res.2.1 :: res.2.2.1.flatten

/- main()'s batch loop (png2asm.py lines 282-329): every image yields a
   status, and only successful images contribute bytes to the output file. -/
def processBatch (mode : Nat) (tol : Int) (ti : Option Nat)
    (imgs : List (List (List RGBAPix))) :
    List (Except EncodeError Unit) × List Nat :=
  (imgs.map (fun i => (convert_png_to_rows mode tol ti i).map (fun _ => ())),
   (imgs.filterMap (fun i =>
      (convert_png_to_rows mode tol ti i).toOption.map imageBlockBytes)).flatten)

/-- C3: an image whose pixel scan resolves more distinct inks than
max_pens mode fails with the palette-overflow error, contributes no bytes to
the batch output, and every other image of the batch is still processed with
its own status. -/
theorem C3_palette_overflow (mode : Nat) (tol : Int) (ti : Option Nat)
    (img : List (List RGBAPix))
    (hdiv : (img.headD []).length % px_per_byte mode = 0)
    (hover : max_pens mode < (scanPixels tol ti img).2.1.length)
    (pre post : List (List (List RGBAPix))) :
    convert_png_to_rows mode tol ti img = .error .paletteOverflow ∧
    (processBatch mode tol ti (pre ++ img :: post)).1 =
      (processBatch mode tol ti pre).1 ++
        .error .paletteOverflow :: (processBatch mode tol ti post).1 ∧
    (processBatch mode tol ti (pre ++ img :: post)).2 =
      (processBatch mode tol ti pre).2 ++ (processBatch mode tol ti post).2 := by
  have hconv : convert_png_to_rows mode tol ti img = .error .paletteOverflow := by
    simp only [convert_png_to_rows]
    rw [if_neg (fun hc => hc hdiv), if_pos hover]
  refine ⟨hconv, ?_, ?_⟩
  · simp only [processBatch, List.map_append, List.map_cons, hconv, Except.map]
  · simp only [processBatch, List.filterMap_append, List.filterMap_cons, hconv,
      Except.toOption, List.flatten_append]
    simp

/- A mode-2 image (8 pixels wide, 1 row) using five distinct on-palette
   colors: inks 0, 2, 6, 18 and 26. -/
def c3OverflowImg : List (List RGBAPix) :=
  [[⟨0, 0, 0, 255⟩, ⟨0, 0, 255, 255⟩, ⟨255, 0, 0, 255⟩, ⟨0, 255, 0, 255⟩,
    ⟨255, 255, 255, 255⟩, ⟨0, 0, 0, 255⟩, ⟨0, 0, 0, 255⟩, ⟨0, 0, 0, 255⟩]]

/- An all-black 8x1 image that encodes successfully under mode 2. -/
def c3OkImg : List (List RGBAPix) :=
  [[⟨0, 0, 0, 255⟩, ⟨0, 0, 0, 255⟩, ⟨0, 0, 0, 255⟩, ⟨0, 0, 0, 255⟩,
    ⟨0, 0, 0, 255⟩, ⟨0, 0, 0, 255⟩, ⟨0, 0, 0, 255⟩, ⟨0, 0, 0, 255⟩]]

/-- Witness for C3: a five-color image under mode 2 (max_pens 2), placed
between two good images of the same batch. -/
theorem C3_palette_overflow_witness :
    convert_png_to_rows 2 0 none c3OverflowImg = .error .paletteOverflow ∧
    (processBatch 2 0 none ([c3OkImg] ++ c3OverflowImg :: [c3OkImg])).1 =
      (processBatch 2 0 none [c3OkImg]).1 ++
        .error .paletteOverflow :: (processBatch 2 0 none [c3OkImg]).1 ∧
    (processBatch 2 0 none ([c3OkImg] ++ c3OverflowImg :: [c3OkImg])).2 =
      (processBatch 2 0 none [c3OkImg]).2 ++ (processBatch 2 0 none [c3OkImg]).2 :=
  C3_palette_overflow 2 0 none c3OverflowImg (by decide) (by decide) [c3OkImg] [c3OkImg]

/- ===== Whole-document geometry heuristic (asm2png.py lines 106-152) ===== -/

/- Python's max(set(xs), key=xs.count): a distinct value of maximal count.
   CPython iterates the set in unspecified hash-dependent order and max
   keeps the first maximal element; this model resolves that tie to
   first-occurrence order in xs, which agrees whenever the maximal count is
   attained by a single value. -/
def mostCommon (xs : List Nat) : Nat :=
  xs.foldl (fun best v => if xs.count best < xs.count v then v else best) (xs.headD 0)

/- The tail of guess_format's "lines" branch (lines 147-152): dominant
   width, per-row truncation or zero-padding to it, empty rows dropped,
   height = number of kept rows. -/
def rowsToImage (img_rows : List (List Nat)) : String × Nat × Nat × List Nat :=
  let width_bytes := mostCommon (img_rows.map List.length)
  let fixed := (img_rows.filter (fun r => !r.isEmpty)).map
    (fun r => (r ++ List.replicate width_bytes 0).take width_bytes)
  ("lines", width_bytes, fixed.length, fixed.flatten)

/- Heuristic B of guess_format (lines 129-152): with at least 3 rows, a
   first row shorter than the dominant width of the remaining rows, that
   width being shared by at least max(2, n // 2) of them, is dropped as
   metadata.  An empty row list raises (modelled as none). -/
def rowGeometry (rows : List (List Nat)) : Option (String × Nat × Nat × List Nat) :=
  if rows.isEmpty then none
  else
    let lengths := rows.map List.length
    let img_rows :=
      if 3 ≤ rows.length then
        let from_second := lengths.tail
        let common_w := mostCommon from_second
        if lengths.headD 0 < common_w ∧
            max 2 (from_second.length / 2) ≤ from_second.count common_w then
          rows.tail
        else rows
      else rows
    some (rowsToImage img_rows)

/- guess_format (asm2png.py lines 106-152): prefer the two-byte header
   interpretation when the first two bytes are in 1..255 and the declared
   region fits, except when the source rows start with a 2-byte row followed
   by a row of length at least 4. -/
def guess_format (rows : List (List Nat)) (flat : List Nat) :
    Option (String × Nat × Nat × List Nat) :=
  match flat with
  | w :: h :: rest =>
    if 1 ≤ w ∧ w ≤ 255 ∧ 1 ≤ h ∧ h ≤ 255 ∧ w * h ≤ rest.length then
      if 2 ≤ rows.length ∧ (rows.getD 0 []).length = 2 ∧ 4 ≤ (rows.getD 1 []).length then
        rowGeometry rows
      else some ("header", w, h, rest.take (w * h))
    else rowGeometry rows
  | _ => rowGeometry rows

/-- C2: when the first two bytes w, h lie in 1..255 and w*h data bytes fit
after them, guess_format chooses the header interpretation, except when the
source rows start with a 2-byte row followed by a row of length at least 4,
in which case it falls back to row-based geometry; in particular
[2,3,1,2,3,4,5,6] is read as a 2x3 header block [1,2,3,4,5,6]. -/
theorem C2_header_heuristic (rows : List (List Nat)) (w h : Nat) (rest : List Nat)
    (hw1 : 1 ≤ w) (hw2 : w ≤ 255) (hh1 : 1 ≤ h) (hh2 : h ≤ 255)
    (hfit : w * h ≤ rest.length) :
    (¬(2 ≤ rows.length ∧ (rows.getD 0 []).length = 2 ∧ 4 ≤ (rows.getD 1 []).length) →
      guess_format rows (w :: h :: rest) = some ("header", w, h, rest.take (w * h))) ∧
    ((2 ≤ rows.length ∧ (rows.getD 0 []).length = 2 ∧ 4 ≤ (rows.getD 1 []).length) →
      guess_format rows (w :: h :: rest) = rowGeometry rows) ∧
    guess_format [[2, 3, 1, 2, 3, 4, 5, 6]] [2, 3, 1, 2, 3, 4, 5, 6] =
      some ("header", 2, 3, [1, 2, 3, 4, 5, 6]) := by
  refine ⟨?_, ?_, by decide⟩
  · intro hexc
    simp only [guess_format]
    rw [if_pos ⟨hw1, hw2, hh1, hh2, hfit⟩, if_neg hexc]
  · intro hexc
    simp only [guess_format]
    rw [if_pos ⟨hw1, hw2, hh1, hh2, hfit⟩, if_pos hexc]

/-- Witness for C2: the header example from the spec and a concrete
ambiguous case (first row of 2 bytes, second row of 4) that falls back. -/
theorem C2_header_heuristic_witness :
    guess_format [[2, 3, 1, 2, 3, 4, 5, 6]] [2, 3, 1, 2, 3, 4, 5, 6] =
      some ("header", 2, 3, [1, 2, 3, 4, 5, 6]) ∧
    guess_format [[2, 2], [1, 2, 3, 4]] [2, 2, 1, 2, 3, 4] =
      rowGeometry [[2, 2], [1, 2, 3, 4]] :=
  ⟨(C2_header_heuristic [[2, 3, 1, 2, 3, 4, 5, 6]] 2 3 [1, 2, 3, 4, 5, 6]
      (by decide) (by decide) (by decide) (by decide) (by decide)).2.2,
   (C2_header_heuristic [[2, 2], [1, 2, 3, 4]] 2 2 [1, 2, 3, 4]
      (by decide) (by decide) (by decide) (by decide) (by decide)).2.1 (by decide)⟩

/-- C7: in row-based geometry with at least 3 rows, the first row is dropped
exactly when it is shorter than the dominant width of the remaining rows
and that width is shared by at least max(2, n // 2) of them (the code's
majority threshold); otherwise all rows are kept.  The 4-row example from
the spec yields a 4-bytes-wide by 3-rows-high image. -/
theorem C7_short_first_row (r0 : List Nat) (rs : List (List Nat)) (h3 : 2 ≤ rs.length) :
    ((r0.length < mostCommon (rs.map List.length) ∧
        max 2 (rs.length / 2) ≤
          (rs.map List.length).count (mostCommon (rs.map List.length))) →
      rowGeometry (r0 :: rs) = some (rowsToImage rs)) ∧
    (¬(r0.length < mostCommon (rs.map List.length) ∧
        max 2 (rs.length / 2) ≤
          (rs.map List.length).count (mostCommon (rs.map List.length))) →
      rowGeometry (r0 :: rs) = some (rowsToImage (r0 :: rs))) ∧
    rowGeometry [[9, 9], [1, 2, 3, 4], [1, 2, 3, 4], [1, 2, 3, 4]] =
      some ("lines", 4, 3, [1, 2, 3, 4, 1, 2, 3, 4, 1, 2, 3, 4]) := by
  have hne : ¬((r0 :: rs).isEmpty = true) := by simp
  refine ⟨?_, ?_, by decide⟩
  · intro hcond
    rw [rowGeometry, if_neg hne]
    simp only [List.map_cons, List.tail_cons, List.headD_cons, List.length_cons,
      List.length_map]
    rw [if_pos (show 3 ≤ rs.length + 1 by omega), if_pos hcond]
  · intro hcond
    rw [rowGeometry, if_neg hne]
    simp only [List.map_cons, List.tail_cons, List.headD_cons, List.length_cons,
      List.length_map]
    rw [if_pos (show 3 ≤ rs.length + 1 by omega), if_neg hcond]

/-- Witness for C7: the spec's 4-row example drops its short first row, and
a 3-row uniform example keeps all rows. -/
theorem C7_short_first_row_witness :
    rowGeometry [[9, 9], [1, 2, 3, 4], [1, 2, 3, 4], [1, 2, 3, 4]] =
      some (rowsToImage [[1, 2, 3, 4], [1, 2, 3, 4], [1, 2, 3, 4]]) ∧
    rowGeometry [[7, 7], [7, 7], [7, 7]] =
      some (rowsToImage [[7, 7], [7, 7], [7, 7]]) :=
  ⟨(C7_short_first_row [9, 9] [[1, 2, 3, 4], [1, 2, 3, 4], [1, 2, 3, 4]]
      (by decide)).1 (by decide),
   (C7_short_first_row [7, 7] [[7, 7], [7, 7]] (by decide)).2.1 (by decide)⟩

/- ===== Per-block decoder (asm2pngs.py decode_block_to_png, lines 219-281) ===== -/

/- Header parsing and pen decoding of one labeled block: the first two db
   bytes are width_bytes and height, followed by exactly width_bytes*height
   data bytes; fewer than 2 bytes in total, or insufficient data, raise
   (modelled as none); excess data is truncated away (line 237).  The value
   is the per-row pen grid the pixel loop of lines 261-277 writes, with the
   driver's normPen wrap applied. -/
def decode_block (mode : Nat) (db_bytes : List Nat) :
    Option (Nat × Nat × List (List Nat)) :=
  match db_bytes with
  | width_bytes :: height :: data0 =>
    if data0.length < width_bytes * height then none
    else
      let data := data0.take (width_bytes * height)
      some (width_bytes, height,
        (List.range height).map (fun y =>
          (((data.drop (y * width_bytes)).take width_bytes).map
            (fun byt => (decodePens mode (byt &&& 255)).map
              (normPen (max_pens mode)))).flatten))
  | _ => none

/-- C8: decoding a labeled block reads width_bytes and height from the first
two data bytes and then exactly width_bytes*height data bytes: blocks with
fewer than 2 bytes (including empty ones) fail, insufficient data after the
header fails, and excess data is ignored, decoding succeeding on the first
width_bytes*height bytes alone. -/
theorem C8_block_header (mode : Nat) :
    decode_block mode [] = none ∧
    (∀ x : Nat, decode_block mode [x] = none) ∧
    (∀ (w h : Nat) (data : List Nat), data.length < w * h →
      decode_block mode (w :: h :: data) = none) ∧
    (∀ (w h : Nat) (data extra : List Nat), data.length = w * h →
      decode_block mode (w :: h :: (data ++ extra)) =
        decode_block mode (w :: h :: data) ∧
      (decode_block mode (w :: h :: data)).isSome) := by
  refine ⟨rfl, fun x => rfl, ?_, ?_⟩
  · intro w h data hlt
    simp only [decode_block]
    rw [if_pos hlt]
  · intro w h data extra hdata
    have hge : ¬((data ++ extra).length < w * h) := by
      rw [List.length_append, hdata]; omega
    have hge2 : ¬(data.length < w * h) := by omega
    have ht1 : (data ++ extra).take (w * h) = data := by
      rw [← hdata, List.take_left]
    have ht2 : data.take (w * h) = data := by rw [← hdata, List.take_length]
    constructor
    · simp only [decode_block]
      rw [if_neg hge, if_neg hge2, ht1, ht2]
    · simp only [decode_block]
      rw [if_neg hge2]
      rfl

/-- Witness for C8 at mode 0: empty and 1-byte blocks fail, a 2x2 block with
3 data bytes fails, and a 2x2 block with 2 excess bytes decodes like the
exact one. -/
theorem C8_block_header_witness :
    decode_block 0 [] = none ∧
    decode_block 0 [5] = none ∧
    decode_block 0 (2 :: 2 :: [1, 2, 3]) = none ∧
    (decode_block 0 (2 :: 2 :: ([1, 2, 3, 4] ++ [9, 9])) =
        decode_block 0 (2 :: 2 :: [1, 2, 3, 4]) ∧
      (decode_block 0 (2 :: 2 :: [1, 2, 3, 4])).isSome) :=
  ⟨(C8_block_header 0).1, (C8_block_header 0).2.1 5,
   (C8_block_header 0).2.2.1 2 2 [1, 2, 3] (by decide),
   (C8_block_header 0).2.2.2 2 2 [1, 2, 3, 4] [9, 9] (by decide)⟩

/- ===== Numeric token scanner and parser (asm2png.py lines 52-64 and 94-99;
   asm2pngs.py lines 73-85 and 186-190 are identical copies) ===== -/

/- ASCII digit (the regex \d on these ASCII inputs). -/
def isDigitChar (c : Char) : Bool := c.isDigit

/- The character class [0-9A-Fa-f] of the hex token alternatives. -/
def isHexChar (c : Char) : Bool :=
  isDigitChar c || ('a' ≤ c && c ≤ 'f') || ('A' ≤ c && c ≤ 'F')

/- ASCII \w, used by the \b word boundaries of the directive regex. -/
def isWordChar (c : Char) : Bool := c.isAlphanum || c = '_'

/- The token scan of re.findall with the alternation of asm2png.py line 94:
   &[hex]+ | 0x[hex]+ | $[hex]+ | -?[digit]+ tried in this order at every
   position, digit runs maximal, positions matching no alternative skipped.
   The regex requires a literal lowercase x in the 0x alternative.  The Nat
   argument is fuel, set to the input length, making the scanner structural;
   tokenizeF_congr below shows any sufficient fuel gives the same result. -/
def tokenizeF : Nat → List Char → List (List Char)
  | 0, _ => []
  | _ + 1, [] => []
  | fuel + 1, c :: cs =>
    if c = '&' then
      if (cs.takeWhile isHexChar).isEmpty then tokenizeF fuel cs
      else ('&' :: cs.takeWhile isHexChar) :: tokenizeF fuel (cs.dropWhile isHexChar)
    else if c = '$' then
      if (cs.takeWhile isHexChar).isEmpty then tokenizeF fuel cs
      else ('$' :: cs.takeWhile isHexChar) :: tokenizeF fuel (cs.dropWhile isHexChar)
    else if isDigitChar c then
      if c = '0' ∧ cs.head? = some 'x' ∧ ¬(cs.tail.takeWhile isHexChar).isEmpty then
        ('0' :: 'x' :: cs.tail.takeWhile isHexChar) ::
          tokenizeF fuel (cs.tail.dropWhile isHexChar)
      else (c :: cs.takeWhile isDigitChar) :: tokenizeF fuel (cs.dropWhile isDigitChar)
    else if c = '-' then
      if (cs.takeWhile isDigitChar).isEmpty then tokenizeF fuel cs
      else ('-' :: cs.takeWhile isDigitChar) :: tokenizeF fuel (cs.dropWhile isDigitChar)
    else tokenizeF fuel cs

def tokenize (l : List Char) : List (List Char) := tokenizeF l.length l

lemma length_dropWhile_le (p : Char → Bool) (l : List Char) :
    (l.dropWhile p).length ≤ l.length :=
  (List.dropWhile_sublist p).length_le

lemma length_tail_le' (l : List Char) : l.tail.length ≤ l.length := by
  cases l <;> simp

lemma tokenizeF_nil : ∀ g : Nat, tokenizeF g [] = [] := by
  intro g; cases g <;> rfl

/- Fuel insensitivity: any fuel at least the input length scans the same. -/
lemma tokenizeF_congr : ∀ (f g : Nat) (l : List Char), l.length ≤ f → l.length ≤ g →
    tokenizeF f l = tokenizeF g l := by
  intro f
  induction f with
  | zero =>
    intro g l hf _
    have : l = [] := List.eq_nil_of_length_eq_zero (Nat.le_zero.mp hf)
    subst this
    rw [tokenizeF_nil, tokenizeF_nil]
  | succ f ih =>
    intro g l hf hg
    cases l with
    | nil => rw [tokenizeF_nil, tokenizeF_nil]
    | cons c cs =>
      cases g with
      | zero => simp at hg
      | succ g =>
        have hcs : cs.length ≤ f := by simpa using hf
        have hcs2 : cs.length ≤ g := by simpa using hg
        have hdx : (cs.dropWhile isHexChar).length ≤ cs.length := length_dropWhile_le _ _
        have hdd : (cs.dropWhile isDigitChar).length ≤ cs.length := length_dropWhile_le _ _
        have hdt : (cs.tail.dropWhile isHexChar).length ≤ cs.length :=
          le_trans (length_dropWhile_le _ _) (length_tail_le' cs)
        simp only [tokenizeF]
        split_ifs
        all_goals first
          | rw [ih g cs hcs hcs2]
          | rw [ih g (cs.dropWhile isHexChar) (le_trans hdx hcs) (le_trans hdx hcs2)]
          | rw [ih g (cs.tail.dropWhile isHexChar) (le_trans hdt hcs) (le_trans hdt hcs2)]
          | rw [ih g (cs.dropWhile isDigitChar) (le_trans hdd hcs) (le_trans hdd hcs2)]

/- A maximal run: takeWhile of a satisfying prefix followed by a suffix
   whose head fails the predicate is exactly the prefix. -/
lemma takeWhile_app (p : Char → Bool) (l₁ l₂ : List Char)
    (h1 : ∀ c ∈ l₁, p c = true) (h2 : ∀ c, l₂.head? = some c → p c = false) :
    (l₁ ++ l₂).takeWhile p = l₁ ∧ (l₁ ++ l₂).dropWhile p = l₂ := by
  induction l₁ with
  | nil =>
    simp only [List.nil_append]
    cases l₂ with
    | nil => simp
    | cons d ds =>
      have hd := h2 d rfl
      simp [List.takeWhile_cons, List.dropWhile_cons, hd]
  | cons a l₁ ih =>
    have ha : p a = true := h1 a (List.mem_cons_self a l₁)
    have ih' := ih (fun c hc => h1 c (List.mem_cons_of_mem a hc))
    simp [List.takeWhile_cons, List.dropWhile_cons, ha, ih'.1, ih'.2]

/- Branch-selection facts for one scanner step. -/
lemma tokenizeF_amp (fuel : Nat) (cs : List Char)
    (hne : ¬((cs.takeWhile isHexChar).isEmpty = true)) :
    tokenizeF (fuel + 1) ('&' :: cs) =
      ('&' :: cs.takeWhile isHexChar) :: tokenizeF fuel (cs.dropWhile isHexChar) := by
  simp only [tokenizeF]
  rw [if_pos trivial, if_neg hne]

lemma tokenizeF_dollar (fuel : Nat) (cs : List Char)
    (hne : ¬((cs.takeWhile isHexChar).isEmpty = true)) :
    tokenizeF (fuel + 1) ('$' :: cs) =
      ('$' :: cs.takeWhile isHexChar) :: tokenizeF fuel (cs.dropWhile isHexChar) := by
  simp only [tokenizeF]
  rw [if_neg (by decide), if_pos trivial, if_neg hne]

lemma tokenizeF_0x (fuel : Nat) (cs : List Char)
    (hx : cs.head? = some 'x')
    (hne : ¬((cs.tail.takeWhile isHexChar).isEmpty = true)) :
    tokenizeF (fuel + 1) ('0' :: cs) =
      ('0' :: 'x' :: cs.tail.takeWhile isHexChar) ::
        tokenizeF fuel (cs.tail.dropWhile isHexChar) := by
  simp only [tokenizeF]
  rw [if_neg (by decide), if_neg (by decide), if_pos (by decide)]
  rw [if_pos (show True ∧ cs.head? = some 'x' ∧
    ¬((cs.tail.takeWhile isHexChar).isEmpty = true) from ⟨trivial, hx, hne⟩)]

lemma tokenizeF_digitRun (fuel : Nat) (c : Char) (cs : List Char)
    (hc1 : c ≠ '&') (hc2 : c ≠ '$') (hc3 : isDigitChar c = true)
    (hnot0x : ¬(c = '0' ∧ cs.head? = some 'x' ∧
      ¬((cs.tail.takeWhile isHexChar).isEmpty = true))) :
    tokenizeF (fuel + 1) (c :: cs) =
      (c :: cs.takeWhile isDigitChar) :: tokenizeF fuel (cs.dropWhile isDigitChar) := by
  simp only [tokenizeF]
  rw [if_neg hc1, if_neg hc2, if_pos hc3, if_neg hnot0x]

lemma tokenizeF_negRun (fuel : Nat) (cs : List Char)
    (hne : ¬((cs.takeWhile isDigitChar).isEmpty = true)) :
    tokenizeF (fuel + 1) ('-' :: cs) =
      ('-' :: cs.takeWhile isDigitChar) :: tokenizeF fuel (cs.dropWhile isDigitChar) := by
  simp only [tokenizeF]
  rw [if_neg (by decide), if_neg (by decide), if_neg (by decide), if_pos trivial, if_neg hne]

/- The concrete character classes of the token alternatives. -/
def decDigitChars : List Char :=
  ['0', '1', '2', '3', '4', '5', '6', '7', '8', '9']

def hexDigitChars : List Char :=
  decDigitChars ++ ['a', 'b', 'c', 'd', 'e', 'f', 'A', 'B', 'C', 'D', 'E', 'F']

lemma hexChar_facts : ∀ c ∈ hexDigitChars,
    isHexChar c = true ∧ c.isWhitespace = false ∧ (c == ',') = false ∧
    c.toLower ≠ 'x' ∧ c ≠ '&' ∧ c ≠ '$' ∧ c ≠ '-' ∧ c ≠ 'x' := by decide

lemma decChar_facts : ∀ c ∈ decDigitChars,
    isDigitChar c = true ∧ c ∈ hexDigitChars := by decide

lemma digit_imp_hex (c : Char) (h : isDigitChar c = true) : isHexChar c = true := by
  simp [isHexChar, h]

lemma not_hex_not_digit (c : Char) (h : isHexChar c = false) : isDigitChar c = false := by
  cases hd : isDigitChar c
  · rfl
  · have ht := digit_imp_hex c hd
    rw [h] at ht
    exact Bool.noConfusion ht

/- Python str.strip() and the rstrip(",") of parse_num (line 53). -/
def pyStrip (t : List Char) : List Char :=
  ((t.dropWhile Char.isWhitespace).reverse.dropWhile Char.isWhitespace).reverse

def pyRstripComma (t : List Char) : List Char :=
  (t.reverse.dropWhile (fun c => c == ',')).reverse

lemma dropWhile_eq_self_of_all {p : Char → Bool} {l : List Char}
    (h : ∀ c ∈ l, p c = false) : l.dropWhile p = l := by
  cases l with
  | nil => rfl
  | cons a l => simp [List.dropWhile_cons, h a (List.mem_cons_self a l)]

lemma pyStrip_noop (t : List Char) (h : ∀ c ∈ t, c.isWhitespace = false) :
    pyStrip t = t := by
  rw [pyStrip, dropWhile_eq_self_of_all h,
    dropWhile_eq_self_of_all (fun c hc => h c (List.mem_reverse.mp hc)),
    List.reverse_reverse]

lemma pyRstripComma_noop (t : List Char) (h : ∀ c ∈ t, (c == ',') = false) :
    pyRstripComma t = t := by
  rw [pyRstripComma,
    dropWhile_eq_self_of_all (fun c hc => h c (List.mem_reverse.mp hc)),
    List.reverse_reverse]

/- Digit values and positional evaluation, as int(s, 16) and int(s, 10)
   compute them on plain digit strings. -/
def hexDigitVal (c : Char) : Nat :=
  if isDigitChar c then c.toNat - '0'.toNat
  else if 'a' ≤ c && c ≤ 'f' then c.toNat - 'a'.toNat + 10
  else c.toNat - 'A'.toNat + 10

def hexValList (l : List Char) : Nat :=
  l.foldl (fun acc c => acc * 16 + hexDigitVal c) 0

def decValList (l : List Char) : Nat :=
  l.foldl (fun acc c => acc * 10 + (c.toNat - '0'.toNat)) 0

/- int(s, 16) on a plain hex-digit string; none models the ValueError on an
   empty or non-hex string.  (Python's int also accepts 0x prefixes, signs
   and underscores, which the token scanner never produces.) -/
def hexVal? (l : List Char) : Option Nat :=
  if l.isEmpty || l.any (fun c => !isHexChar c) then none else some (hexValList l)

def decVal? (l : List Char) : Option Nat :=
  if l.isEmpty || l.any (fun c => !isDigitChar c) then none else some (decValList l)

/- parse_num (asm2png.py lines 52-64): strip, drop trailing commas, then the
   four branches &hex, lower().startswith 0x, $hex, fullmatch -?digits. -/
def parse_num (t0 : List Char) : Option Int :=
  match pyRstripComma (pyStrip t0) with
  | [] => none
  | c :: cs =>
    if c = '&' then (hexVal? cs).map Int.ofNat
    else if c = '0' ∧ cs.head?.map Char.toLower = some 'x' then
      (hexVal? cs.tail).map Int.ofNat
    else if c = '$' then (hexVal? cs).map Int.ofNat
    else if c = '-' then (decVal? cs).map (fun n => -(n : Int))
    else (decVal? (c :: cs)).map Int.ofNat

/- One data line's byte extraction (asm2png.py lines 94-99): scan the text
   after the directive for tokens, parse each, append value & 0xFF; on Int,
   n &&& 255 equals n % 256 also for negative n, as in Python. -/
def lineVals (tail : List Char) : List Nat :=
  (tokenize tail).filterMap (fun t => (parse_num t).map (fun n => (n % 256).toNat))

/- line.split(";", 1)[0] of line 89: everything before the first ';'. -/
def splitComment (l : List Char) : List Char := l.takeWhile (fun c => c != ';')

def headNotWord (l : List Char) : Bool :=
  match l.head? with
  | none => true
  | some c => !isWordChar c

/- \b(db|defb)\b at the head of l, case-insensitive, trying db before defb
   as the regex alternation does; returns the rest of the line, i.e. the
   (.*)$ capture. -/
def matchKw (l : List Char) : Option (List Char) :=
  match l with
  | c1 :: c2 :: rest =>
    if c1.toLower = 'd' ∧ c2.toLower = 'b' ∧ headNotWord rest then some rest
    else
      match rest with
      | c3 :: c4 :: rest2 =>
        if c1.toLower = 'd' ∧ c2.toLower = 'e' ∧ c3.toLower = 'f' ∧ c4.toLower = 'b' ∧
            headNotWord rest2 then some rest2
        else none
      | _ => none
  | _ => none

/- re.search of \b(db|defb)\b(.*)$ (line 90): first position with a word
   boundary before it where a keyword matches; the Bool records whether the
   previous character was a word character. -/
def findData : List Char → Bool → Option (List Char)
  | [], _ => none
  | c :: cs, prevWord =>
    if !prevWord then
      match matchKw (c :: cs) with
      | some tail => some tail
      | none => findData cs (isWordChar c)
    else findData cs (isWordChar c)

/- The whole per-line pipeline of parse_asm_flexible (lines 88-99): strip
   the comment, find the data directive, extract the byte values appended
   to the current row and the flat sequence. -/
def lineBytes (line : List Char) : List Nat :=
  match findData (splitComment line) false with
  | some tail => lineVals tail
  | none => []

/- The four accepted numeric surface forms, paired with the value parse_num
   gives them: &hex, 0x-hex with a lowercase x (the scanner's regex demands
   it), $hex, and optionally negated decimal. -/
inductive NumForm : List Char → Int → Prop where
  | amp (ds : List Char) (h1 : ds ≠ []) (h2 : ∀ c ∈ ds, c ∈ hexDigitChars) :
      NumForm ('&' :: ds) (Int.ofNat (hexValList ds))
  | hex0x (ds : List Char) (h1 : ds ≠ []) (h2 : ∀ c ∈ ds, c ∈ hexDigitChars) :
      NumForm ('0' :: 'x' :: ds) (Int.ofNat (hexValList ds))
  | dollar (ds : List Char) (h1 : ds ≠ []) (h2 : ∀ c ∈ ds, c ∈ hexDigitChars) :
      NumForm ('$' :: ds) (Int.ofNat (hexValList ds))
  | dec (ds : List Char) (h1 : ds ≠ []) (h2 : ∀ c ∈ ds, c ∈ decDigitChars) :
      NumForm ds (Int.ofNat (decValList ds))
  | negdec (ds : List Char) (h1 : ds ≠ []) (h2 : ∀ c ∈ ds, c ∈ decDigitChars) :
      NumForm ('-' :: ds) (-(Int.ofNat (decValList ds)))

/- A separator suffix: empty, or starting with a character that can neither
   extend a numeric token nor turn a lone 0 into a 0x token. -/
def SepOk (rest : List Char) : Prop :=
  ∀ c, rest.head? = some c → isHexChar c = false ∧ c ≠ 'x'

lemma sepOk_nil : SepOk [] := fun _ hc => Option.noConfusion hc

lemma sepOk_cons (c : Char) (l : List Char) (h1 : isHexChar c = false) (h2 : c ≠ 'x') :
    SepOk (c :: l) := by
  intro d hd
  cases Option.some_inj.mp hd
  exact ⟨h1, h2⟩

lemma isEmpty_false_of_ne_nil {l : List Char} (h : l ≠ []) : ¬(l.isEmpty = true) := by
  cases l
  · exact absurd rfl h
  · simp

/- Scanning a well-formed token followed by a separator yields the token and
   then the scan of the remainder: left-to-right, one value per token. -/
lemma tokenize_step (t : List Char) (v : Int) (rest : List Char)
    (hform : NumForm t v) (hsep : SepOk rest) :
    tokenize (t ++ rest) = t :: tokenize rest := by
  have hrestLe : ∀ ds : List Char, rest.length ≤ (ds ++ rest).length := by
    intro ds; rw [List.length_append]; omega
  cases hform with
  | amp ds h1 h2 =>
    have hx : ∀ c ∈ ds, isHexChar c = true := fun c hc => (hexChar_facts c (h2 c hc)).1
    have hr : ∀ c, rest.head? = some c → isHexChar c = false := fun c hc => (hsep c hc).1
    obtain ⟨htw, hdw⟩ := takeWhile_app isHexChar ds rest hx hr
    have hne : ¬(((ds ++ rest).takeWhile isHexChar).isEmpty = true) := by
      rw [htw]; exact isEmpty_false_of_ne_nil h1
    rw [List.cons_append, tokenize, tokenize, List.length_cons,
      tokenizeF_amp _ _ hne, htw, hdw,
      tokenizeF_congr ((ds ++ rest).length) rest.length rest (hrestLe ds) (le_refl _)]
  | dollar ds h1 h2 =>
    have hx : ∀ c ∈ ds, isHexChar c = true := fun c hc => (hexChar_facts c (h2 c hc)).1
    have hr : ∀ c, rest.head? = some c → isHexChar c = false := fun c hc => (hsep c hc).1
    obtain ⟨htw, hdw⟩ := takeWhile_app isHexChar ds rest hx hr
    have hne : ¬(((ds ++ rest).takeWhile isHexChar).isEmpty = true) := by
      rw [htw]; exact isEmpty_false_of_ne_nil h1
    rw [List.cons_append, tokenize, tokenize, List.length_cons,
      tokenizeF_dollar _ _ hne, htw, hdw,
      tokenizeF_congr ((ds ++ rest).length) rest.length rest (hrestLe ds) (le_refl _)]
  | hex0x ds h1 h2 =>
    have hx : ∀ c ∈ ds, isHexChar c = true := fun c hc => (hexChar_facts c (h2 c hc)).1
    have hr : ∀ c, rest.head? = some c → isHexChar c = false := fun c hc => (hsep c hc).1
    obtain ⟨htw, hdw⟩ := takeWhile_app isHexChar ds rest hx hr
    have hne : ¬((('x' :: (ds ++ rest)).tail.takeWhile isHexChar).isEmpty = true) := by
      rw [List.tail_cons, htw]; exact isEmpty_false_of_ne_nil h1
    rw [List.cons_append, List.cons_append, tokenize, tokenize, List.length_cons,
      List.length_cons,
      tokenizeF_0x ((ds ++ rest).length + 1) ('x' :: (ds ++ rest)) rfl hne,
      List.tail_cons, htw, hdw]
    rw [tokenizeF_congr ((ds ++ rest).length + 1) rest.length rest
      (le_trans (hrestLe ds) (Nat.le_succ _)) (le_refl _)]
  | dec ds h1 h2 =>
    cases t with
    | nil => exact absurd rfl h1
    | cons d ds' =>
      have hd := decChar_facts d (h2 d (List.mem_cons_self d ds'))
      have hdfacts := hexChar_facts d hd.2
      have hx : ∀ c ∈ ds', isDigitChar c = true := fun c hc =>
        (decChar_facts c (h2 c (List.mem_cons_of_mem d hc))).1
      have hr : ∀ c, rest.head? = some c → isDigitChar c = false := fun c hc =>
        not_hex_not_digit c (hsep c hc).1
      obtain ⟨htw, hdw⟩ := takeWhile_app isDigitChar ds' rest hx hr
      have hnot0x : ¬(d = '0' ∧ (ds' ++ rest).head? = some 'x' ∧
          ¬(((ds' ++ rest).tail.takeWhile isHexChar).isEmpty = true)) := by
        rintro ⟨-, hx2, -⟩
        cases ds' with
        | nil =>
          rw [List.nil_append] at hx2
          exact (hsep 'x' hx2).2 rfl
        | cons e es =>
          rw [List.cons_append, List.head?_cons] at hx2
          have he : e = 'x' := Option.some_inj.mp hx2
          exact absurd he
            (hexChar_facts e (decChar_facts e (h2 e (List.mem_cons_of_mem d
              (List.mem_cons_self e es)))).2).2.2.2.2.2.2.2
      rw [List.cons_append, tokenize, tokenize, List.length_cons,
        tokenizeF_digitRun _ d _ hdfacts.2.2.2.2.1 hdfacts.2.2.2.2.2.1 hd.1 hnot0x,
        htw, hdw,
        tokenizeF_congr ((ds' ++ rest).length) rest.length rest (hrestLe ds') (le_refl _)]
  | negdec ds h1 h2 =>
    have hx : ∀ c ∈ ds, isDigitChar c = true := fun c hc => (decChar_facts c (h2 c hc)).1
    have hr : ∀ c, rest.head? = some c → isDigitChar c = false := fun c hc =>
      not_hex_not_digit c (hsep c hc).1
    obtain ⟨htw, hdw⟩ := takeWhile_app isDigitChar ds rest hx hr
    have hne : ¬(((ds ++ rest).takeWhile isDigitChar).isEmpty = true) := by
      rw [htw]; exact isEmpty_false_of_ne_nil h1
    rw [List.cons_append, tokenize, tokenize, List.length_cons,
      tokenizeF_negRun _ _ hne, htw, hdw,
      tokenizeF_congr ((ds ++ rest).length) rest.length rest (hrestLe ds) (le_refl _)]

lemma isEmpty_false_of_ne_nil' {l : List Char} (h : l ≠ []) : l.isEmpty = false := by
  cases l with
  | nil => exact absurd rfl h
  | cons a l => rfl

lemma hexVal_some (ds : List Char) (h1 : ds ≠ []) (h2 : ∀ c ∈ ds, c ∈ hexDigitChars) :
    hexVal? ds = some (hexValList ds) := by
  have hc1 : ds.isEmpty = false := isEmpty_false_of_ne_nil' h1
  have hc2 : ds.any (fun c => !isHexChar c) = false := by
    refine List.any_eq_false.mpr ?_
    intro c hc
    simp [(hexChar_facts c (h2 c hc)).1]
  rw [hexVal?, hc1, hc2]
  simp

lemma decVal_some (ds : List Char) (h1 : ds ≠ []) (h2 : ∀ c ∈ ds, c ∈ decDigitChars) :
    decVal? ds = some (decValList ds) := by
  have hc1 : ds.isEmpty = false := isEmpty_false_of_ne_nil' h1
  have hc2 : ds.any (fun c => !isDigitChar c) = false := by
    refine List.any_eq_false.mpr ?_
    intro c hc
    simp [(decChar_facts c (h2 c hc)).1]
  rw [decVal?, hc1, hc2]
  simp

lemma strip_id_of_token (t : List Char)
    (hws : ∀ c ∈ t, c.isWhitespace = false) (hcm : ∀ c ∈ t, (c == ',') = false) :
    pyRstripComma (pyStrip t) = t := by
  rw [pyStrip_noop t hws, pyRstripComma_noop t hcm]

lemma parse_num_eq (t0 : List Char) (c : Char) (cs : List Char)
    (h : pyRstripComma (pyStrip t0) = c :: cs) :
    parse_num t0 =
      (if c = '&' then (hexVal? cs).map Int.ofNat
       else if c = '0' ∧ cs.head?.map Char.toLower = some 'x' then
         (hexVal? cs.tail).map Int.ofNat
       else if c = '$' then (hexVal? cs).map Int.ofNat
       else if c = '-' then (decVal? cs).map (fun n => -(n : Int))
       else (decVal? (c :: cs)).map Int.ofNat) := by
  rw [parse_num, h]

lemma hex_token_strip (ds : List Char) (c0 : Char) (h2 : ∀ c ∈ ds, c ∈ hexDigitChars)
    (hws0 : c0.isWhitespace = false) (hcm0 : (c0 == ',') = false) :
    pyRstripComma (pyStrip (c0 :: ds)) = c0 :: ds := by
  refine strip_id_of_token _ ?_ ?_
  · intro c hc
    rcases List.mem_cons.mp hc with h | h
    · subst h; exact hws0
    · exact (hexChar_facts c (h2 c h)).2.1
  · intro c hc
    rcases List.mem_cons.mp hc with h | h
    · subst h; exact hcm0
    · exact (hexChar_facts c (h2 c h)).2.2.1

lemma parse_num_amp (ds : List Char) (h1 : ds ≠ []) (h2 : ∀ c ∈ ds, c ∈ hexDigitChars) :
    parse_num ('&' :: ds) = some (Int.ofNat (hexValList ds)) := by
  rw [parse_num_eq ('&' :: ds) '&' ds (hex_token_strip ds '&' h2 rfl rfl),
    if_pos rfl, hexVal_some ds h1 h2]
  rfl

lemma parse_num_dollar (ds : List Char) (h1 : ds ≠ []) (h2 : ∀ c ∈ ds, c ∈ hexDigitChars) :
    parse_num ('$' :: ds) = some (Int.ofNat (hexValList ds)) := by
  rw [parse_num_eq ('$' :: ds) '$' ds (hex_token_strip ds '$' h2 rfl rfl),
    if_neg (by decide), if_neg (by rintro ⟨h, -⟩; exact absurd h (by decide)),
    if_pos rfl, hexVal_some ds h1 h2]
  rfl

lemma parse_num_0x (ds : List Char) (h1 : ds ≠ []) (h2 : ∀ c ∈ ds, c ∈ hexDigitChars) :
    parse_num ('0' :: 'x' :: ds) = some (Int.ofNat (hexValList ds)) := by
  have hstrip : pyRstripComma (pyStrip ('0' :: 'x' :: ds)) = '0' :: 'x' :: ds := by
    refine strip_id_of_token _ ?_ ?_
    · intro c hc
      rcases List.mem_cons.mp hc with h | h
      · subst h; rfl
      · rcases List.mem_cons.mp h with h | h
        · subst h; rfl
        · exact (hexChar_facts c (h2 c h)).2.1
    · intro c hc
      rcases List.mem_cons.mp hc with h | h
      · subst h; rfl
      · rcases List.mem_cons.mp h with h | h
        · subst h; rfl
        · exact (hexChar_facts c (h2 c h)).2.2.1
  rw [parse_num_eq ('0' :: 'x' :: ds) '0' ('x' :: ds) hstrip,
    if_neg (by decide), if_pos ⟨rfl, rfl⟩, List.tail_cons, hexVal_some ds h1 h2]
  rfl

lemma dec_token_strip (ds : List Char) (c0 : Char) (h2 : ∀ c ∈ ds, c ∈ decDigitChars)
    (hws0 : c0.isWhitespace = false) (hcm0 : (c0 == ',') = false) :
    pyRstripComma (pyStrip (c0 :: ds)) = c0 :: ds := by
  refine strip_id_of_token _ ?_ ?_
  · intro c hc
    rcases List.mem_cons.mp hc with h | h
    · subst h; exact hws0
    · exact (hexChar_facts c (decChar_facts c (h2 c h)).2).2.1
  · intro c hc
    rcases List.mem_cons.mp hc with h | h
    · subst h; exact hcm0
    · exact (hexChar_facts c (decChar_facts c (h2 c h)).2).2.2.1

lemma parse_num_dec (ds : List Char) (h1 : ds ≠ []) (h2 : ∀ c ∈ ds, c ∈ decDigitChars) :
    parse_num ds = some (Int.ofNat (decValList ds)) := by
  cases ds with
  | nil => exact absurd rfl h1
  | cons d ds' =>
    have hdh := hexChar_facts d (decChar_facts d (h2 d (List.mem_cons_self d ds'))).2
    have hstrip : pyRstripComma (pyStrip (d :: ds')) = d :: ds' :=
      dec_token_strip ds' d (fun c hc => h2 c (List.mem_cons_of_mem d hc))
        hdh.2.1 hdh.2.2.1
    have hnot0x : ¬(d = '0' ∧ ds'.head?.map Char.toLower = some 'x') := by
      rintro ⟨-, hx⟩
      cases ds' with
      | nil => simp at hx
      | cons e es =>
        rw [List.head?_cons, Option.map_some'] at hx
        exact absurd (Option.some_inj.mp hx)
          (hexChar_facts e
            (decChar_facts e (h2 e (List.mem_cons_of_mem d
              (List.mem_cons_self e es)))).2).2.2.2.1
    rw [parse_num_eq (d :: ds') d ds' hstrip,
      if_neg hdh.2.2.2.2.1, if_neg hnot0x, if_neg hdh.2.2.2.2.2.1,
      if_neg hdh.2.2.2.2.2.2.1, decVal_some (d :: ds') h1 h2]
    rfl

lemma parse_num_neg (ds : List Char) (h1 : ds ≠ []) (h2 : ∀ c ∈ ds, c ∈ decDigitChars) :
    parse_num ('-' :: ds) = some (-(Int.ofNat (decValList ds))) := by
  have hstrip : pyRstripComma (pyStrip ('-' :: ds)) = '-' :: ds :=
    dec_token_strip ds '-' h2 rfl rfl
  rw [parse_num_eq ('-' :: ds) '-' ds hstrip,
    if_neg (by decide), if_neg (by rintro ⟨h, -⟩; exact absurd h (by decide)),
    if_neg (by decide), if_pos rfl, decVal_some ds h1 h2]
  rfl

/-- C9 counterexample: on the data line db 0X7F the uppercase 0X prefix is
not recognized as hex — the token scanner's 0x alternative demands a literal
lowercase x, so it reads two decimal tokens 0 and 7 and appends [0, 7],
unlike the lowercase line db 0x7F which appends [127]. -/
theorem C9_uppercase_0X_counterexample :
    lineBytes (String.toList "db 0X7F") = [0, 7] ∧
    lineBytes (String.toList "db 0x7F") = [127] ∧
    lineBytes (String.toList "db 0X7F") ≠ lineBytes (String.toList "db 0x7F") :=
  ⟨by decide, by decide, by decide⟩

/-- C9 (amended): on a data line every numeric token in the surface forms
bare decimal, negated decimal, &-hex, 0x-hex and $-hex — hex digits
case-insensitive, but the 0x prefix lowercase — is recognized and its value
modulo 256 is appended to the line's byte sequence in left-to-right order. -/
theorem C9_token_pipeline :
    (∀ (t : List Char) (v : Int) (rest : List Char), NumForm t v → SepOk rest →
      lineVals (t ++ rest) = ((v % 256).toNat) :: lineVals rest) ∧
    lineBytes (String.toList "  db 123, -5, &7F, 0x7f, $aB, &ff") =
      [123, 251, 127, 127, 171, 255] := by
  refine ⟨?_, by decide⟩
  intro t v rest hform hsep
  have htok := tokenize_step t v rest hform hsep
  have hparse : parse_num t = some v := by
    cases hform with
    | amp ds h1 h2 => exact parse_num_amp ds h1 h2
    | hex0x ds h1 h2 => exact parse_num_0x ds h1 h2
    | dollar ds h1 h2 => exact parse_num_dollar ds h1 h2
    | dec ds h1 h2 => exact parse_num_dec t h1 h2
    | negdec ds h1 h2 => exact parse_num_neg ds h1 h2
  rw [lineVals, lineVals, htok]
  simp [List.filterMap_cons, hparse]

/-- Witness for C9: the token &7F followed by a separator contributes 127,
and a lone -5 contributes 251, i.e. -5 mod 256. -/
theorem C9_token_pipeline_witness :
    lineVals (('&' :: ['7', 'F']) ++ [',', ' ']) =
      ((Int.ofNat (hexValList ['7', 'F']) % 256).toNat) :: lineVals [',', ' '] ∧
    lineVals (('-' :: ['5']) ++ []) =
      (((-(Int.ofNat (decValList ['5']))) % 256).toNat) :: lineVals [] :=
  ⟨C9_token_pipeline.1 ('&' :: ['7', 'F']) (Int.ofNat (hexValList ['7', 'F'])) [',', ' ']
      (NumForm.amp ['7', 'F'] (by decide) (by decide))
      (sepOk_cons ',' [' '] (by decide) (by decide)),
   C9_token_pipeline.1 ('-' :: ['5']) (-(Int.ofNat (decValList ['5']))) []
      (NumForm.negdec ['5'] (by decide) (by decide)) sepOk_nil⟩
